import Mathlib

/-!
Verification of the generic semaphore-based recursive mutex
(`src/thread/generic/SDL_sysmutex.c`).

Two embeddings are developed, both translated directly from the C source:

* A functional, per-call embedding.  The C struct `SDL_Mutex` becomes the
  structure `SDL_Mutex` below (the semaphore pointer is embedded as the
  semaphore's current token count).  Each C function becomes a Lean
  function over `Option SDL_Mutex` (`none` models a NULL pointer).  The
  outcome of the underlying `SDL_WaitSemaphore` call is an explicit
  parameter `wr` (0 = success, nonzero = platform wait failure), because
  the C code treats that collaborator as a black box.  A call that would
  suspend forever on an empty semaphore is modelled as `Option.none` at
  the result type: the pure embedding captures exactly the executions
  that return.  Each function also reports the list of semaphore
  primitives it invoked, so "performs no semaphore operation" claims are
  statable.

* A small-step interleaving embedding (`MutexSys`) for the concurrency
  claims.  The global state carries the semaphore count, the `owner` and
  `recursive` fields, and a per-thread location counter tracking where
  each thread stands inside `SDL_LockMutex` / `SDL_UnlockMutex`.  The
  individual memory operations of the C code (take the semaphore token,
  write `owner`, clear `owner`, post the token) are separate atomic
  steps, in the order the C source performs them.
-/

namespace SDLMutex

/-- The `struct SDL_Mutex` of the C source: `int recursive`,
`SDL_ThreadID owner`, `SDL_Semaphore *sem`.  Thread ids are `Nat` with
`0` the "no owner" sentinel (the C code stores literal `0`);
`SDL_GetCurrentThreadID` never returns `0` for a real thread.  The
semaphore is embedded as its token count. -/
structure SDL_Mutex where
  recursive : Nat
  owner : Nat
  semCount : Nat
deriving DecidableEq, Repr

/-- Semaphore primitives a lock/unlock call can invoke.
`waitSem` is the blocking `SDL_WaitSemaphore`, `postSem` is
`SDL_PostSemaphore`.  (The C file never calls the non-blocking
`SDL_TryWaitSemaphore`, so no such event exists in the embedding.) -/
inductive SemEvent where
  | waitSem
  | postSem
deriving DecidableEq, Repr

/-- Allocation-level events of `SDL_CreateMutex`. -/
inductive CreateEvent where
  | calloc (ok : Bool)
  | createSem (ok : Bool)
  | freeMutex
  | outOfMemory
deriving DecidableEq, Repr

/-- Events of `SDL_DestroyMutex`. -/
inductive DestroyEvent where
  | destroySem
  | freeMutex
deriving DecidableEq, Repr

/-- `SDL_CreateMutex` (threads-enabled build): `SDL_calloc` the struct;
on success create the semaphore with initial value 1 and set
`recursive = 0`, `owner = 0`; if semaphore creation fails, free the
struct and return NULL; if allocation fails, report out-of-memory and
return NULL.  The two `Bool` parameters are the collaborators' outcomes
(allocation succeeded, semaphore creation succeeded). -/
def SDL_CreateMutex (allocOk semOk : Bool) :
    Option SDL_Mutex × List CreateEvent :=
  if allocOk then
    if semOk then
      (some ⟨0, 0, 1⟩, [.calloc true, .createSem true])
    else
      (none, [.calloc true, .createSem false, .freeMutex])
  else
    (none, [.calloc false, .outOfMemory])

/-- `SDL_DestroyMutex`: NULL is a no-op; otherwise destroy the owned
semaphore and free the struct. -/
def SDL_DestroyMutex (om : Option SDL_Mutex) : List DestroyEvent :=
  match om with
  | none => []
  | some _ => [.destroySem, .freeMutex]

/-- `SDL_LockMutex mutex this_thread wr`:
NULL mutex returns 0.  If `owner == this_thread`, `++recursive`.
Otherwise `SDL_WaitSemaphore(sem)` — its result `wr` is discarded —
then `owner := this_thread; recursive := 0`.  Returns 0 on every path.
A successful wait (`wr = 0`) consumes a token and is only possible when
one is available (`semCount ≠ 0`; otherwise the call blocks, modelled
as `none`); a failed wait (`wr ≠ 0`) returns without consuming a
token. -/
def SDL_LockMutex (om : Option SDL_Mutex) (this_thread : Nat) (wr : Int) :
    Option (Int × Option SDL_Mutex × List SemEvent) :=
  match om with
  | none => some (0, none, [])
  | some m =>
    if m.owner = this_thread then
      some (0, some { m with recursive := m.recursive + 1 }, [])
    else
      if wr = 0 then
        if m.semCount = 0 then
          none
        else
          some (0, some ⟨0, this_thread, m.semCount - 1⟩, [.waitSem])
      else
        some (0, some ⟨0, this_thread, m.semCount⟩, [.waitSem])

/-- `SDL_TryLockMutex mutex this_thread wr`:
NULL mutex returns 0.  If `owner == this_thread`, `++recursive` and
return 0.  Otherwise `retval = SDL_WaitSemaphore(sem)` — the blocking
primitive, exactly as in the C source — and only if `retval == 0` set
`owner := this_thread; recursive := 0`; return `retval`.  As in
`SDL_LockMutex`, a successful wait needs a token (`none` = the call
blocks when the semaphore is empty). -/
def SDL_TryLockMutex (om : Option SDL_Mutex) (this_thread : Nat) (wr : Int) :
    Option (Int × Option SDL_Mutex × List SemEvent) :=
  match om with
  | none => some (0, none, [])
  | some m =>
    if m.owner = this_thread then
      some (0, some { m with recursive := m.recursive + 1 }, [])
    else
      if wr = 0 then
        if m.semCount = 0 then
          none
        else
          some (0, some ⟨0, this_thread, m.semCount - 1⟩, [.waitSem])
      else
        some (wr, some m, [.waitSem])

/-- `SDL_UnlockMutex mutex this_thread`:
NULL mutex returns 0.  If `this_thread != owner`, return the
`SDL_SetError` code (−1) and change nothing.  If `recursive` is
nonzero, `--recursive`.  Otherwise clear `owner` to 0, then
`SDL_PostSemaphore(sem)`.  Returns 0.  This call never blocks, so the
result is total. -/
def SDL_UnlockMutex (om : Option SDL_Mutex) (this_thread : Nat) :
    Int × Option SDL_Mutex × List SemEvent :=
  match om with
  | none => (0, none, [])
  | some m =>
    if this_thread ≠ m.owner then
      (-1, some m, [])
    else
      if m.recursive ≠ 0 then
        (0, some { m with recursive := m.recursive - 1 }, [])
      else
        (0, some ⟨0, 0, m.semCount + 1⟩, [.postSem])

/-- The state a freshly created mutex has (recursive 0, no owner,
one semaphore token). -/
def initMutex : SDL_Mutex := ⟨0, 0, 1⟩

/-- `n` consecutive successful `SDL_LockMutex` calls by thread `t`
(with healthy semaphore waits, `wr = 0`), threading the state and
concatenating the semaphore traces; `none` if a call would block. -/
def repeatLock (t : Nat) : Nat → SDL_Mutex → Option (SDL_Mutex × List SemEvent)
  | 0, m => some (m, [])
  | n + 1, m =>
    match SDL_LockMutex (some m) t 0 with
    | some (_, some m2, tr) => (repeatLock t n m2).map fun p => (p.1, tr ++ p.2)
    | _ => none

/-- `n` consecutive `SDL_UnlockMutex` calls by thread `t`, threading
the state and concatenating the semaphore traces; `none` if a call
fails. -/
def repeatUnlock (t : Nat) : Nat → SDL_Mutex → Option (SDL_Mutex × List SemEvent)
  | 0, m => some (m, [])
  | n + 1, m =>
    let r := SDL_UnlockMutex (some m) t
    if r.1 = 0 then
      match r.2.1 with
      | some m2 => (repeatUnlock t n m2).map fun p => (p.1, r.2.2 ++ p.2)
      | none => none
    else none

/-- The invariant I2 of the spec: a positive recursion count implies a
real owner. -/
def mutexInv (m : SDL_Mutex) : Prop := 0 < m.recursive → m.owner ≠ 0

instance (m : SDL_Mutex) : Decidable (mutexInv m) := by
  unfold mutexInv; infer_instance

/-- The mutex state delivered by a lock/trylock call, if the call
returned and the mutex was non-null. -/
def resultState (res : Option (Int × Option SDL_Mutex × List SemEvent)) :
    Option SDL_Mutex :=
  match res with
  | some (_, some m2, _) => some m2
  | _ => none

/-- The status code delivered by a lock/trylock call, if the call
returned. -/
def resultCode (res : Option (Int × Option SDL_Mutex × List SemEvent)) :
    Option Int :=
  res.map fun r => r.1

/-! ### Small-step interleaving model

The concurrency claims need the individual memory operations of
`SDL_LockMutex` / `SDL_UnlockMutex` as separate atomic steps.  A global
state `CState` carries the mutex fields and, for every thread id, a
location counter recording where that thread stands inside a call:

* `idle` — not inside a call (and holding no acquisition);
* `waiting` — inside `SDL_LockMutex`'s else-branch, blocked in
  `SDL_WaitSemaphore` (`SDL_TryLockMutex`'s else-branch is the same
  code, since the C source calls the same blocking primitive there);
* `settingOwner` — `SDL_WaitSemaphore` returned (token taken), the
  writes `owner = this_thread; recursive = 0` not yet performed;
* `holding` — completed an acquire without a matching outermost
  release;
* `releasing` — inside `SDL_UnlockMutex`'s outermost branch, after
  `owner = 0` but before `SDL_PostSemaphore`.
-/

/-- Per-thread location counter. -/
inductive TStatus where
  | idle
  | waiting
  | settingOwner
  | holding
  | releasing
deriving DecidableEq, Repr

/-- Global state of the interleaving model: semaphore token count, the
mutex's `owner` and `recursive` fields, and each thread's location. -/
structure CState where
  sem : Nat
  owner : Nat
  recursive : Nat
  st : Nat → TStatus

/-- Pointwise update of the thread-location map. -/
def updSt (f : Nat → TStatus) (t : Nat) (v : TStatus) : Nat → TStatus :=
  fun u => if u = t then v else f u

/-- One atomic step by thread `t` (`t ≠ 0`: `SDL_GetCurrentThreadID`
never returns the sentinel).  Each constructor is one memory operation
of the C source, in source order. -/
inductive Step : CState → CState → Prop where
  | startAcquire (s : CState) (t : Nat) (ht : t ≠ 0)
      (hidle : s.st t = .idle) (hown : s.owner ≠ t) :
      Step s { s with st := updSt s.st t .waiting }
  | reacquire (s : CState) (t : Nat) (ht : t ≠ 0)
      (hcall : s.st t = .idle ∨ s.st t = .holding) (hown : s.owner = t) :
      Step s { s with recursive := s.recursive + 1, st := updSt s.st t .holding }
  | takeToken (s : CState) (t : Nat) (ht : t ≠ 0)
      (hw : s.st t = .waiting) (hsem : 0 < s.sem) :
      Step s { s with sem := s.sem - 1, st := updSt s.st t .settingOwner }
  | setOwner (s : CState) (t : Nat) (ht : t ≠ 0)
      (hs : s.st t = .settingOwner) :
      Step s { s with owner := t, recursive := 0, st := updSt s.st t .holding }
  | releaseErr (s : CState) (t : Nat) (ht : t ≠ 0)
      (hcall : s.st t = .idle ∨ s.st t = .holding) (hown : s.owner ≠ t) :
      Step s s
  | releaseDec (s : CState) (t : Nat) (ht : t ≠ 0)
      (hcall : s.st t = .idle ∨ s.st t = .holding) (hown : s.owner = t)
      (hrec : 0 < s.recursive) :
      Step s { s with recursive := s.recursive - 1 }
  | clearOwner (s : CState) (t : Nat) (ht : t ≠ 0)
      (hcall : s.st t = .idle ∨ s.st t = .holding) (hown : s.owner = t)
      (hrec : s.recursive = 0) :
      Step s { s with owner := 0, st := updSt s.st t .releasing }
  | post (s : CState) (t : Nat) (ht : t ≠ 0) (hr : s.st t = .releasing) :
      Step s { s with sem := s.sem + 1, st := updSt s.st t .idle }

/-- The state right after `SDL_CreateMutex`: one token, no owner, no
recursion, every thread outside the calls. -/
def initState : CState := ⟨1, 0, 0, fun _ => .idle⟩

/-- States reachable from the initial state by interleaved steps. -/
def Reachable (s : CState) : Prop := Relation.ReflTransGen Step initState s

/-- Thread `u` is "inside the token-protected region": it has taken
the semaphore token and not yet posted it back. -/
def regionSt (f : Nat → TStatus) (u : Nat) : Prop :=
  f u = .settingOwner ∨ f u = .holding ∨ f u = .releasing

/-- The inductive invariant of the interleaving model. -/
structure SysInv (s : CState) : Prop where
  unique : ∀ t u, regionSt s.st t → regionSt s.st u → t = u
  semZero : ∀ t, regionSt s.st t → s.sem = 0
  semFree : (∀ t, ¬ regionSt s.st t) → s.sem = 1
  ownerHolding : s.owner ≠ 0 → s.st s.owner = .holding
  holdingOwner : ∀ t, s.st t = .holding → s.owner = t
  settingNoOwner : ∀ t, s.st t = .settingOwner → s.owner = 0
  releasingNoOwner : ∀ t, s.st t = .releasing → s.owner = 0

/-- The state reached from `initState` when thread 1 enters the slow
path of `SDL_LockMutex` (used as a concrete one-step example). -/
def wState : CState := { initState with st := updSt initState.st 1 TStatus.waiting }

/-! ### Helper lemmas about repeated lock/unlock runs -/

/-- A thread that already owns the mutex can lock it `n` more times:
each call just increments `recursive`, touching neither `owner` nor the
semaphore. -/
theorem repeatLock_reentrant (t : Nat) :
    ∀ n k c, repeatLock t n ⟨k, t, c⟩ = some (⟨k + n, t, c⟩, []) := by
  intro n
  induction n with
  | zero => intro k c; simp [repeatLock]
  | succ n ih =>
    intro k c
    have hlock : SDL_LockMutex (some ⟨k, t, c⟩) t 0 =
        some (0, some ⟨k + 1, t, c⟩, []) := by
      simp [SDL_LockMutex]
    simp only [repeatLock, hlock, ih (k + 1) c, Option.map_some]
    simp only [List.nil_append]
    have h2 : k + 1 + n = k + (n + 1) := by omega
    rw [h2]
    simp

/-- Locking a fresh mutex `n + 1` times by thread `t`: the first call
takes the semaphore token, the rest are re-entrant. -/
theorem repeatLock_from_free (t : Nat) (ht : t ≠ 0) (n : Nat) :
    repeatLock t (n + 1) initMutex = some (⟨n, t, 0⟩, [.waitSem]) := by
  have h0t : (0 : Nat) ≠ t := fun e => ht e.symm
  have h0 : SDL_LockMutex (some initMutex) t 0 =
      some (0, some ⟨0, t, 0⟩, [.waitSem]) := by
    simp [SDL_LockMutex, initMutex, h0t]
  simp only [repeatLock, h0, repeatLock_reentrant t n 0 0, Option.map_some]
  simp

/-- The owning thread can unlock `k ≤ d` times from recursion depth `d`:
each call decrements `recursive`, leaving the thread the owner and the
semaphore untouched. -/
theorem repeatUnlock_dec (t : Nat) :
    ∀ k d c, k ≤ d → repeatUnlock t k ⟨d, t, c⟩ = some (⟨d - k, t, c⟩, []) := by
  intro k
  induction k with
  | zero => intro d c _; simp [repeatUnlock]
  | succ k ih =>
    intro d c hk
    obtain ⟨d2, rfl⟩ : ∃ d2, d = d2 + 1 := ⟨d - 1, by omega⟩
    have hu : SDL_UnlockMutex (some ⟨d2 + 1, t, c⟩) t =
        (0, some ⟨d2, t, c⟩, []) := by
      simp [SDL_UnlockMutex]
    simp only [repeatUnlock, hu, ih d2 c (by omega), Option.map_some]
    simp only [List.nil_append]
    norm_num
    omega

/-- Unlocking `n + 1` times from recursion depth `n` frees the mutex:
the first `n` calls decrement `recursive`, the last clears `owner` and
posts the semaphore token back. -/
theorem repeatUnlock_free (t : Nat) :
    ∀ n, repeatUnlock t (n + 1) ⟨n, t, 0⟩ = some (initMutex, [.postSem]) := by
  intro n
  induction n with
  | zero =>
    have hu : SDL_UnlockMutex (some ⟨0, t, 0⟩) t = (0, some ⟨0, 0, 1⟩, [.postSem]) := by
      simp [SDL_UnlockMutex]
    simp [repeatUnlock, hu, initMutex]
  | succ n ih =>
    have hu : SDL_UnlockMutex (some ⟨n + 1, t, 0⟩) t = (0, some ⟨n, t, 0⟩, []) := by
      simp [SDL_UnlockMutex]
    show (let r := SDL_UnlockMutex (some ⟨n + 1, t, 0⟩) t
      if r.1 = 0 then
        match r.2.1 with
        | some m2 => (repeatUnlock t (n + 1) m2).map fun p => (p.1, r.2.2 ++ p.2)
        | none => none
      else none) = some (initMutex, [SemEvent.postSem])
    rw [hu]
    show (repeatUnlock t (n + 1) ⟨n, t, 0⟩).map (fun p => (p.1, [] ++ p.2)) =
      some (initMutex, [SemEvent.postSem])
    rw [ih]
    simp

/-! ### Per-call claims -/

/-- Claim C3: for every non-null lock whose `owner` equals the calling
thread's identity, `SDL_LockMutex` increments the recursion count by
exactly one, performs no semaphore operation (empty trace), leaves
`owner` unchanged, and returns success (0). -/
theorem C3_reentrant_acquire (m : SDL_Mutex) (t : Nat) (wr : Int)
    (h : m.owner = t) :
    SDL_LockMutex (some m) t wr =
      some (0, some { m with recursive := m.recursive + 1 }, []) := by
  simp [SDL_LockMutex, h]

/-- Witness for C3 at the concrete lock `⟨2, 5, 0⟩` and thread 5. -/
theorem C3_reentrant_acquire_witness :
    (SDL_Mutex.mk 2 5 0).owner = 5 ∧
    SDL_LockMutex (some ⟨2, 5, 0⟩) 5 7 = some (0, some ⟨3, 5, 0⟩, []) :=
  ⟨rfl, C3_reentrant_acquire ⟨2, 5, 0⟩ 5 7 rfl⟩

/-- Claim C4: for every non-null lock, `SDL_UnlockMutex` called by a
thread whose identity differs from `owner` (including a free lock,
whose `owner` is the sentinel 0, never a valid thread id) returns the
ownership-violation error (−1) and leaves the whole state — `owner`,
`recursive`, semaphore — unchanged, performing no semaphore
operation. -/
theorem C4_unlock_not_owner (m : SDL_Mutex) (t : Nat) (h : m.owner ≠ t) :
    SDL_UnlockMutex (some m) t = (-1, some m, []) := by
  have h2 : t ≠ m.owner := fun e => h e.symm
  simp [SDL_UnlockMutex, h2]

/-- Witness for C4: thread 3 releasing the free lock `⟨0, 0, 1⟩`. -/
theorem C4_unlock_not_owner_witness :
    (SDL_Mutex.mk 0 0 1).owner ≠ 3 ∧
    SDL_UnlockMutex (some ⟨0, 0, 1⟩) 3 = (-1, some ⟨0, 0, 1⟩, []) :=
  ⟨by decide, C4_unlock_not_owner ⟨0, 0, 1⟩ 3 (by decide)⟩

/-- Claim C5: recursion round-trip.  A thread `t` that locks a fresh
mutex `N ≥ 1` times reaches recursion count `N − 1` with a single
semaphore wait; each of the first `N − 1` unlocks leaves `t` the owner
with a decremented count and no semaphore operation; and `N` unlocks
altogether return the mutex to its free state with exactly one
semaphore post. -/
theorem C5_recursion_roundtrip (N t : Nat) (hN : 1 ≤ N) (ht : t ≠ 0) :
    repeatLock t N initMutex = some (⟨N - 1, t, 0⟩, [.waitSem]) ∧
    (∀ k, k ≤ N - 1 →
      repeatUnlock t k ⟨N - 1, t, 0⟩ = some (⟨N - 1 - k, t, 0⟩, [])) ∧
    repeatUnlock t N ⟨N - 1, t, 0⟩ = some (initMutex, [.postSem]) := by
  obtain ⟨n, rfl⟩ : ∃ n, N = n + 1 := ⟨N - 1, by omega⟩
  refine ⟨?_, ?_, ?_⟩
  · simpa using repeatLock_from_free t ht n
  · intro k hk
    simpa using repeatUnlock_dec t k n 0 (by omega)
  · simpa using repeatUnlock_free t n

/-- Witness for C5 at `N = 3`, thread 7. -/
theorem C5_recursion_roundtrip_witness :
    (1 ≤ 3 ∧ (7 : Nat) ≠ 0) ∧
    (repeatLock 7 3 initMutex = some (⟨2, 7, 0⟩, [.waitSem]) ∧
      (∀ k, k ≤ 2 → repeatUnlock 7 k ⟨2, 7, 0⟩ = some (⟨2 - k, 7, 0⟩, [])) ∧
      repeatUnlock 7 3 ⟨2, 7, 0⟩ = some (initMutex, [.postSem])) :=
  ⟨⟨by decide, by decide⟩, C5_recursion_roundtrip 3 7 (by decide) (by decide)⟩

/-- Claim C7: `SDL_CreateMutex` either returns a lock with one
semaphore token, sentinel owner and zero recursion count, or returns
NULL when allocation or semaphore creation fails; in the
semaphore-failure case the partially allocated storage is freed before
returning. -/
theorem C7_create_mutex :
    SDL_CreateMutex true true =
      (some initMutex, [.calloc true, .createSem true]) ∧
    initMutex = ⟨0, 0, 1⟩ ∧
    SDL_CreateMutex false true = (none, [.calloc false, .outOfMemory]) ∧
    SDL_CreateMutex false false = (none, [.calloc false, .outOfMemory]) ∧
    SDL_CreateMutex true false =
      (none, [.calloc true, .createSem false, .freeMutex]) := by
  refine ⟨rfl, rfl, rfl, rfl, rfl⟩

/-- Claim C8: `SDL_LockMutex`, `SDL_TryLockMutex`, `SDL_UnlockMutex`
and `SDL_DestroyMutex` on a NULL lock are no-ops returning success,
with no semaphore interaction. -/
theorem C8_null_safety (t : Nat) (wr : Int) :
    SDL_LockMutex none t wr = some (0, none, []) ∧
    SDL_TryLockMutex none t wr = some (0, none, []) ∧
    SDL_UnlockMutex none t = (0, none, []) ∧
    SDL_DestroyMutex none = [] :=
  ⟨rfl, rfl, rfl, rfl⟩

/-- Claim C9: starting from the freshly created state, each of lock,
trylock and unlock preserves invariant I2 (`recursive > 0 → owner ≠
sentinel`), given that real thread ids are never the sentinel. -/
theorem C9_inv_preserved :
    mutexInv initMutex ∧
    (∀ m t wr m2, t ≠ 0 → mutexInv m →
      resultState (SDL_LockMutex (some m) t wr) = some m2 → mutexInv m2) ∧
    (∀ m t wr m2, t ≠ 0 → mutexInv m →
      resultState (SDL_TryLockMutex (some m) t wr) = some m2 → mutexInv m2) ∧
    (∀ m t m2, t ≠ 0 → mutexInv m →
      (SDL_UnlockMutex (some m) t).2.1 = some m2 → mutexInv m2) := by
  refine ⟨by simp [mutexInv, initMutex], ?_, ?_, ?_⟩
  · intro m t wr m2 ht hm h
    simp only [SDL_LockMutex] at h
    split_ifs at h with h1 h2 h3
    all_goals simp only [resultState] at h
    all_goals try exact Option.noConfusion h
    all_goals injection h with h4
    all_goals subst h4
    all_goals intro hrec
    all_goals first
      | exact ht
      | exact hm hrec
      | simpa [h1] using ht
  · intro m t wr m2 ht hm h
    simp only [SDL_TryLockMutex] at h
    split_ifs at h with h1 h2 h3
    all_goals simp only [resultState] at h
    all_goals try exact Option.noConfusion h
    all_goals injection h with h4
    all_goals subst h4
    all_goals intro hrec
    all_goals first
      | exact ht
      | exact hm hrec
      | simpa [h1] using ht
  · intro m t m2 ht hm h
    simp only [SDL_UnlockMutex] at h
    split_ifs at h with h1 h2
    all_goals dsimp only at h
    all_goals injection h with h4
    all_goals subst h4
    · exact hm
    · intro hrec
      exact hm (by omega)
    · intro hrec
      exact absurd hrec (by simp)

/-- Witness for C9: the lock-preservation conjunct applied to the
fresh mutex and thread 1. -/
theorem C9_inv_preserved_witness :
    ((1 : Nat) ≠ 0 ∧ mutexInv initMutex) ∧ mutexInv ⟨0, 1, 0⟩ :=
  ⟨⟨by decide, by decide⟩,
    C9_inv_preserved.2.1 initMutex 1 0 ⟨0, 1, 0⟩
      (by decide) (by decide) (by decide)⟩

/-- Claim C10: `SDL_LockMutex` returns 0 on every path that returns —
the result of `SDL_WaitSemaphore` is discarded — and even when the
wait reports a failure (`wr ≠ 0`) the caller is still recorded as
owner with recursion count 0 and success is returned. -/
theorem C10_lock_returns_zero :
    (∀ om t wr z, resultCode (SDL_LockMutex om t wr) = some z → z = 0) ∧
    (∀ m t wr, m.owner ≠ t → wr ≠ 0 →
      SDL_LockMutex (some m) t wr =
        some (0, some ⟨0, t, m.semCount⟩, [.waitSem])) := by
  constructor
  · intro om t wr z h
    cases om with
    | none =>
      simp [SDL_LockMutex, resultCode] at h
      omega
    | some m =>
      simp only [SDL_LockMutex] at h
      split_ifs at h
      all_goals simp [resultCode] at h
      all_goals omega
  · intro m t wr h1 h2
    simp [SDL_LockMutex, h1, h2]

/-- Witness for C10: thread 1 locking `⟨0, 2, 0⟩` (held by thread 2)
with a failing wait result 3: the call returns 0 and records thread 1
as owner. -/
theorem C10_lock_returns_zero_witness :
    ((SDL_Mutex.mk 0 2 0).owner ≠ 1 ∧ (3 : Int) ≠ 0) ∧
    SDL_LockMutex (some ⟨0, 2, 0⟩) 1 3 =
      some (0, some ⟨0, 1, 0⟩, [.waitSem]) ∧
    (0 : Int) = 0 :=
  ⟨⟨by decide, by decide⟩,
    C10_lock_returns_zero.2 ⟨0, 2, 0⟩ 1 3 (by decide) (by decide),
    C10_lock_returns_zero.1 (some ⟨0, 2, 0⟩) 1 3 0 (by decide)⟩

/-- Claim C2 (counterexample): `SDL_TryLockMutex` on a lock held by
another thread does not return a would-block status: its slow path
calls the blocking `SDL_WaitSemaphore`, so with no token available the
call suspends (no returning execution exists), and with a healthy
semaphore wait its behaviour is identical to `SDL_LockMutex`. -/
theorem C2_trylock_blocks :
    SDL_TryLockMutex (some ⟨0, 2, 0⟩) 1 0 = none ∧
    (∀ m t, m.owner ≠ t →
      SDL_TryLockMutex (some m) t 0 = SDL_LockMutex (some m) t 0) := by
  constructor
  · rfl
  · intro m t h
    simp [SDL_TryLockMutex, SDL_LockMutex, h]

/-- Witness for C2's second conjunct at the lock `⟨0, 2, 0⟩`, thread
1. -/
theorem C2_trylock_blocks_witness :
    (SDL_Mutex.mk 0 2 0).owner ≠ 1 ∧
    SDL_TryLockMutex (some ⟨0, 2, 0⟩) 1 0 = SDL_LockMutex (some ⟨0, 2, 0⟩) 1 0 :=
  ⟨by decide, C2_trylock_blocks.2 ⟨0, 2, 0⟩ 1 (by decide)⟩

/-! ### The inductive invariant of the interleaving model -/

theorem updSt_self (f : Nat → TStatus) (t : Nat) (v : TStatus) :
    updSt f t v t = v := by
  simp [updSt]

theorem updSt_ne (f : Nat → TStatus) (t : Nat) (v : TStatus) (u : Nat)
    (h : u ≠ t) : updSt f t v u = f u := by
  simp [updSt, h]

theorem regionSt_upd_ne (f : Nat → TStatus) (t : Nat) (v : TStatus) (u : Nat)
    (h : u ≠ t) : regionSt (updSt f t v) u ↔ regionSt f u := by
  unfold regionSt
  rw [updSt_ne f t v u h]

theorem sysInv_init : SysInv initState := by
  constructor
  · intro t u ht _
    rcases ht with h | h | h <;> simp [initState] at h
  · intro t ht
    rcases ht with h | h | h <;> simp [initState] at h
  · intro _
    rfl
  · intro h
    exact absurd rfl h
  · intro t h
    simp [initState] at h
  · intro t h
    simp [initState] at h
  · intro t h
    simp [initState] at h

theorem sysInv_step (s s2 : CState) (hinv : SysInv s) (hstep : Step s s2) :
    SysInv s2 := by
  obtain ⟨inv1, inv2, inv3, inv4, inv5, inv6, inv7⟩ := hinv
  cases hstep with
  | startAcquire t ht hidle hown =>
    have hreg : ∀ u, regionSt (updSt s.st t .waiting) u ↔ regionSt s.st u := by
      intro u
      by_cases hu : u = t
      · subst hu
        unfold regionSt
        rw [updSt_self, hidle]
        simp
      · exact regionSt_upd_ne _ _ _ _ hu
    refine ⟨?_, ?_, ?_, ?_, ?_, ?_, ?_⟩ <;> dsimp only
    · intro a b ha hb
      exact inv1 a b ((hreg a).1 ha) ((hreg b).1 hb)
    · intro a ha
      exact inv2 a ((hreg a).1 ha)
    · intro hall
      exact inv3 fun a hc => hall a ((hreg a).2 hc)
    · intro hno
      exact (updSt_ne s.st t .waiting s.owner hown).trans (inv4 hno)
    · intro a ha
      by_cases hu : a = t
      · subst hu
        rw [updSt_self] at ha
        exact absurd ha (by simp)
      · rw [updSt_ne _ _ _ _ hu] at ha
        exact inv5 a ha
    · intro a ha
      by_cases hu : a = t
      · subst hu
        rw [updSt_self] at ha
        exact absurd ha (by simp)
      · rw [updSt_ne _ _ _ _ hu] at ha
        exact inv6 a ha
    · intro a ha
      by_cases hu : a = t
      · subst hu
        rw [updSt_self] at ha
        exact absurd ha (by simp)
      · rw [updSt_ne _ _ _ _ hu] at ha
        exact inv7 a ha
  | reacquire t ht hcall hown =>
    have hth : s.st t = .holding := by
      have h2 := inv4 (by rw [hown]; exact ht)
      rwa [hown] at h2
    have hreg : ∀ u, regionSt (updSt s.st t .holding) u ↔ regionSt s.st u := by
      intro u
      by_cases hu : u = t
      · subst hu
        unfold regionSt
        rw [updSt_self, hth]
      · exact regionSt_upd_ne _ _ _ _ hu
    refine ⟨?_, ?_, ?_, ?_, ?_, ?_, ?_⟩ <;> dsimp only
    · intro a b ha hb
      exact inv1 a b ((hreg a).1 ha) ((hreg b).1 hb)
    · intro a ha
      exact inv2 a ((hreg a).1 ha)
    · intro hall
      exact inv3 fun a hc => hall a ((hreg a).2 hc)
    · intro _
      rw [hown, updSt_self]
    · intro a ha
      by_cases hu : a = t
      · rw [hu]
        exact hown
      · rw [updSt_ne _ _ _ _ hu] at ha
        exact inv5 a ha
    · intro a ha
      by_cases hu : a = t
      · subst hu
        rw [updSt_self] at ha
        exact absurd ha (by simp)
      · rw [updSt_ne _ _ _ _ hu] at ha
        exact inv6 a ha
    · intro a ha
      by_cases hu : a = t
      · subst hu
        rw [updSt_self] at ha
        exact absurd ha (by simp)
      · rw [updSt_ne _ _ _ _ hu] at ha
        exact inv7 a ha
  | takeToken t ht hw hsem =>
    have hempty : ∀ u, ¬ regionSt s.st u := by
      intro u hu
      have h2 := inv2 u hu
      omega
    have hown0 : s.owner = 0 := by
      by_contra h0
      exact hempty s.owner (Or.inr (Or.inl (inv4 h0)))
    have hsem1 : s.sem = 1 := inv3 hempty
    have hregn : ∀ u, u ≠ t → ¬ regionSt (updSt s.st t .settingOwner) u := by
      intro u hu hr
      rw [regionSt_upd_ne _ _ _ _ hu] at hr
      exact hempty u hr
    refine ⟨?_, ?_, ?_, ?_, ?_, ?_, ?_⟩ <;> dsimp only
    · intro a b ha hb
      by_cases hat : a = t
      · by_cases hbt : b = t
        · rw [hat, hbt]
        · exact absurd hb (hregn b hbt)
      · exact absurd ha (hregn a hat)
    · intro a _
      omega
    · intro hall
      exact absurd (Or.inl (updSt_self s.st t .settingOwner)) (hall t)
    · intro hno
      exact absurd hown0 hno
    · intro a ha
      by_cases hat : a = t
      · subst hat
        rw [updSt_self] at ha
        exact absurd ha (by simp)
      · rw [updSt_ne _ _ _ _ hat] at ha
        exact absurd (Or.inr (Or.inl ha)) (hempty a)
    · intro a _
      exact hown0
    · intro a _
      exact hown0
  | setOwner t ht hs =>
    have hreg : ∀ u, regionSt (updSt s.st t .holding) u ↔ regionSt s.st u := by
      intro u
      by_cases hu : u = t
      · subst hu
        unfold regionSt
        rw [updSt_self, hs]
        simp
      · exact regionSt_upd_ne _ _ _ _ hu
    refine ⟨?_, ?_, ?_, ?_, ?_, ?_, ?_⟩ <;> dsimp only
    · intro a b ha hb
      exact inv1 a b ((hreg a).1 ha) ((hreg b).1 hb)
    · intro a ha
      exact inv2 a ((hreg a).1 ha)
    · intro hall
      exact absurd (Or.inr (Or.inl (updSt_self s.st t .holding))) (hall t)
    · intro _
      exact updSt_self s.st t .holding
    · intro a ha
      by_cases hat : a = t
      · rw [hat]
      · rw [updSt_ne _ _ _ _ hat] at ha
        exact absurd (inv1 a t (Or.inr (Or.inl ha)) (Or.inl hs)) hat
    · intro a ha
      by_cases hat : a = t
      · subst hat
        rw [updSt_self] at ha
        exact absurd ha (by simp)
      · rw [updSt_ne _ _ _ _ hat] at ha
        exact absurd (inv1 a t (Or.inl ha) (Or.inl hs)) hat
    · intro a ha
      by_cases hat : a = t
      · subst hat
        rw [updSt_self] at ha
        exact absurd ha (by simp)
      · rw [updSt_ne _ _ _ _ hat] at ha
        exact absurd (inv1 a t (Or.inr (Or.inr ha)) (Or.inl hs)) hat
  | releaseErr t ht hcall hown =>
    exact ⟨inv1, inv2, inv3, inv4, inv5, inv6, inv7⟩
  | releaseDec t ht hcall hown hrec =>
    exact ⟨inv1, inv2, inv3, inv4, inv5, inv6, inv7⟩
  | clearOwner t ht hcall hown hrec =>
    have hth : s.st t = .holding := by
      have h2 := inv4 (by rw [hown]; exact ht)
      rwa [hown] at h2
    have hreg : ∀ u, regionSt (updSt s.st t .releasing) u ↔ regionSt s.st u := by
      intro u
      by_cases hu : u = t
      · subst hu
        unfold regionSt
        rw [updSt_self, hth]
        simp
      · exact regionSt_upd_ne _ _ _ _ hu
    refine ⟨?_, ?_, ?_, ?_, ?_, ?_, ?_⟩ <;> dsimp only
    · intro a b ha hb
      exact inv1 a b ((hreg a).1 ha) ((hreg b).1 hb)
    · intro a ha
      exact inv2 a ((hreg a).1 ha)
    · intro hall
      exact absurd (Or.inr (Or.inr (updSt_self s.st t .releasing))) (hall t)
    · intro h0
      exact absurd rfl h0
    · intro a ha
      by_cases hat : a = t
      · subst hat
        rw [updSt_self] at ha
        exact absurd ha (by simp)
      · rw [updSt_ne _ _ _ _ hat] at ha
        exact absurd (inv1 a t (Or.inr (Or.inl ha)) (Or.inr (Or.inl hth))) hat
    · intro a _
      rfl
    · intro a _
      rfl
  | post t ht hr =>
    have hone : ∀ u, regionSt s.st u → u = t :=
      fun u hu => inv1 u t hu (Or.inr (Or.inr hr))
    have hregn : ∀ u, ¬ regionSt (updSt s.st t .idle) u := by
      intro u hu
      by_cases hat : u = t
      · subst hat
        unfold regionSt at hu
        rw [updSt_self] at hu
        simp at hu
      · rw [regionSt_upd_ne _ _ _ _ hat] at hu
        exact hat (hone u hu)
    have hown0 : s.owner = 0 := inv7 t hr
    have hsem0 : s.sem = 0 := inv2 t (Or.inr (Or.inr hr))
    refine ⟨?_, ?_, ?_, ?_, ?_, ?_, ?_⟩ <;> dsimp only
    · intro a b ha _
      exact absurd ha (hregn a)
    · intro a ha
      exact absurd ha (hregn a)
    · intro _
      omega
    · intro h0
      exact absurd hown0 h0
    · intro a ha
      by_cases hat : a = t
      · subst hat
        rw [updSt_self] at ha
        exact absurd ha (by simp)
      · rw [updSt_ne _ _ _ _ hat] at ha
        exact absurd (hone a (Or.inr (Or.inl ha))) hat
    · intro a ha
      by_cases hat : a = t
      · subst hat
        rw [updSt_self] at ha
        exact absurd ha (by simp)
      · rw [updSt_ne _ _ _ _ hat] at ha
        exact absurd (hone a (Or.inl ha)) hat
    · intro a ha
      by_cases hat : a = t
      · subst hat
        rw [updSt_self] at ha
        exact absurd ha (by simp)
      · rw [updSt_ne _ _ _ _ hat] at ha
        exact absurd (hone a (Or.inr (Or.inr ha))) hat

theorem sysInv_reachable (s : CState) (h : Reachable s) : SysInv s := by
  unfold Reachable at h
  induction h with
  | refl => exact sysInv_init
  | tail _ hbc ih => exact sysInv_step _ _ ih hbc

/-- Claim C1: mutual exclusion.  In every state reachable by
interleaved lock/unlock steps from the initial state, no two distinct
threads simultaneously consider themselves the current owner (have
completed an acquire without a matching outermost release). -/
theorem C1_mutual_exclusion (s : CState) (hs : Reachable s) (T U : Nat)
    (hTU : T ≠ U) : ¬ (s.st T = .holding ∧ s.st U = .holding) := by
  intro ⟨hT, hU⟩
  have hinv := sysInv_reachable s hs
  exact hTU (((hinv.holdingOwner T hT).symm.trans (hinv.holdingOwner U hU)))

/-- Witness for C1 at the initial state and threads 1 ≠ 2. -/
theorem C1_mutual_exclusion_witness :
    Reachable initState ∧ (1 : Nat) ≠ 2 ∧
    ¬ (initState.st 1 = .holding ∧ initState.st 2 = .holding) :=
  ⟨Relation.ReflTransGen.refl, by decide,
    C1_mutual_exclusion initState Relation.ReflTransGen.refl 1 2 (by decide)⟩

/-- Claim C6: ordering invariant.  Along any step from a reachable
state: (a) a step that installs a new (non-sentinel) owner is performed
by a thread that has already taken the semaphore token (`settingOwner`
location, token held, so `sem = 0`) and does not itself touch the
semaphore — the token is taken strictly before `owner` is set; (b) a
step that posts a token back happens only with `owner` already cleared
to the sentinel and leaves it cleared — `owner` is cleared strictly
before the post, never the reverse order. -/
theorem C6_ordering (s s2 : CState) (hs : Reachable s) (hstep : Step s s2) :
    ((s2.owner ≠ s.owner ∧ s2.owner ≠ 0) →
      (s.st s2.owner = .settingOwner ∧ s.sem = 0 ∧ s2.sem = s.sem)) ∧
    (s.sem < s2.sem → (s.owner = 0 ∧ s2.owner = 0)) := by
  have hinv := sysInv_reachable s hs
  cases hstep with
  | startAcquire t ht hidle hown =>
    exact ⟨fun h => absurd rfl h.1, fun h => absurd h (lt_irrefl _)⟩
  | reacquire t ht hcall hown =>
    exact ⟨fun h => absurd rfl h.1, fun h => absurd h (lt_irrefl _)⟩
  | takeToken t ht hw hsem =>
    refine ⟨fun h => absurd rfl h.1, fun h => absurd h ?_⟩
    dsimp only
    omega
  | setOwner t ht hs2 =>
    refine ⟨fun _ => ⟨hs2, hinv.semZero t (Or.inl hs2), rfl⟩,
      fun h => absurd h (lt_irrefl _)⟩
  | releaseErr t ht hcall hown =>
    exact ⟨fun h => absurd rfl h.1, fun h => absurd h (lt_irrefl _)⟩
  | releaseDec t ht hcall hown hrec =>
    exact ⟨fun h => absurd rfl h.1, fun h => absurd h (lt_irrefl _)⟩
  | clearOwner t ht hcall hown hrec =>
    exact ⟨fun h => absurd rfl h.2, fun h => absurd h (lt_irrefl _)⟩
  | post t ht hr =>
    exact ⟨fun h => absurd rfl h.1,
      fun _ => ⟨hinv.releasingNoOwner t hr, hinv.releasingNoOwner t hr⟩⟩

/-- Witness for C6 along the concrete step in which thread 1 enters
the slow path from the initial state. -/
theorem C6_ordering_witness :
    Reachable initState ∧ Step initState wState ∧
    (((wState.owner ≠ initState.owner ∧ wState.owner ≠ 0) →
      (initState.st wState.owner = .settingOwner ∧ initState.sem = 0 ∧
        wState.sem = initState.sem)) ∧
     (initState.sem < wState.sem →
      (initState.owner = 0 ∧ wState.owner = 0))) :=
  ⟨Relation.ReflTransGen.refl,
    Step.startAcquire initState 1 (by decide) rfl (by decide),
    C6_ordering initState wState Relation.ReflTransGen.refl
      (Step.startAcquire initState 1 (by decide) rfl (by decide))⟩

end SDLMutex
